import Mathlib

/-!
Verification of the address-reconciliation pipeline of `renew_ip.py`.

The pure core of the program is embedded shallowly: Python strings become
`String`, Python string methods used by the program (`splitlines`, `split`,
`strip`, `startswith`, `join`, `int(...)`, `str(...)`) are modelled as
executable Lean functions over `List Char`, and the program's functions
(`double_interface_generator`, `get_current_ip`, `get_new_ip`,
`get_new_gateway`, `get_new_table`, `rewrite_config_str`, and the pure
compute section of `change_config`) are translated line by line.  File and
process I/O (`get_ip_addresses`, `read_config`, `write_config`) are the
external collaborators of the spec and are not modelled; `change_config` is
embedded as the function from the read config text to the written config
text.  Fallible operations (Python `IndexError` from `pts[1]`/`pts[3]`,
`ValueError` from `int(...)`) are modelled with `Option`/`Except`.

Note on line splitting: Python's `str.splitlines` recognizes several line
boundaries; this embedding models the `'\n'` boundary, the only one that
occurs in this program's inputs (output of `ip -4 -o a` and systemd
`.network` files).
-/

/-- Model of Python `str.split(sep)` for a single-character separator,
working on the character list: `"a..b".split('.') == ['a','','b']`,
`"".split('.') == ['']`. -/
def pySplitCAux (sep : Char) : List Char → List Char → List String
  | [], acc => [acc.reverse.asString]
  | c :: rest, acc =>
    if c = sep then acc.reverse.asString :: pySplitCAux sep rest []
    else pySplitCAux sep rest (c :: acc)

/-- Python `s.split(sep)` with a one-character separator. -/
def pySplitC (s : String) (sep : Char) : List String :=
  pySplitCAux sep s.data []

/-- Model of Python `str.splitlines` (with `'\n'` as the line boundary):
a trailing newline does not produce a final empty line, and the empty
string yields no lines. -/
def splitlinesAux : List Char → List Char → List String
  | [], acc => if acc.isEmpty then [] else [acc.reverse.asString]
  | c :: rest, acc =>
    if c = '\n' then acc.reverse.asString :: splitlinesAux rest []
    else splitlinesAux rest (c :: acc)

/-- Python `s.splitlines()`. -/
def splitlines (s : String) : List String :=
  splitlinesAux s.data []

/-- Model of Python `str.split()` (no separator): split on runs of
whitespace, discarding leading and trailing whitespace. -/
def pySplitWsAux : List Char → List Char → List String
  | [], acc => if acc.isEmpty then [] else [acc.reverse.asString]
  | c :: rest, acc =>
    if c.isWhitespace then
      if acc.isEmpty then pySplitWsAux rest []
      else acc.reverse.asString :: pySplitWsAux rest []
    else pySplitWsAux rest (c :: acc)

/-- Python `s.split()`. -/
def pySplitWs (s : String) : List String :=
  pySplitWsAux s.data []

/-- Python `s.strip()`: remove leading and trailing whitespace. -/
def pyStrip (s : String) : String :=
  ((s.data.dropWhile Char.isWhitespace).reverse.dropWhile Char.isWhitespace).reverse.asString

/-- `listStarts p l` holds when the character list `p` is an initial
segment of `l`. -/
def listStarts : List Char → List Char → Bool
  | [], _ => true
  | _ :: _, [] => false
  | p :: ps, c :: cs => p = c && listStarts ps cs

/-- Python `s.startswith(pre)`. -/
def pyStartswith (s pre : String) : Bool :=
  listStarts pre.data s.data

/-- Python `sep.join(parts)`. -/
def pyJoin (sep : String) : List String → String
  | [] => ""
  | [s] => s
  | s :: s2 :: rest => s ++ sep ++ pyJoin sep (s2 :: rest)

/-- The decimal digit character for `n % 10`. -/
def digitChar (n : Nat) : Char :=
  if n = 0 then '0' else if n = 1 then '1' else if n = 2 then '2'
  else if n = 3 then '3' else if n = 4 then '4' else if n = 5 then '5'
  else if n = 6 then '6' else if n = 7 then '7' else if n = 8 then '8'
  else '9'

/-- Decimal digits of a natural number, most significant first; `fuel`
bounds the recursion depth (any `fuel > log10 n` gives the full answer). -/
def natToDecAux : Nat → Nat → List Char → List Char
  | 0, _, acc => acc
  | fuel + 1, n, acc =>
    if n < 10 then digitChar (n % 10) :: acc
    else natToDecAux fuel (n / 10) (digitChar (n % 10) :: acc)

/-- Decimal string of a natural number, as produced by Python `str`. -/
def natToDecStr (n : Nat) : String :=
  (natToDecAux (n + 1) n []).asString

/-- Decimal string of an integer, as produced by Python `str` /
f-string formatting of an `int`. -/
def intToDecStr : Int → String
  | Int.ofNat n => natToDecStr n
  | Int.negSucc n => "-" ++ natToDecStr (n + 1)

/-- Value of a list of decimal digit characters. -/
def digitsToNat (l : List Char) : Nat :=
  l.foldl (fun n c => 10 * n + (c.toNat - 48)) 0

/-- Parse a nonempty all-digit character list. -/
def parseDigits (l : List Char) : Option Nat :=
  if l ≠ [] ∧ l.all Char.isDigit then some (digitsToNat l) else none

/-- Worker for `pyInt`, on the character list. -/
def pyIntAux : List Char → Option Int
  | [] => none
  | c :: rest =>
    if c = '-' then (parseDigits rest).map (fun n => -(n : Int))
    else if c = '+' then (parseDigits rest).map (fun n => (n : Int))
    else (parseDigits (c :: rest)).map (fun n => (n : Int))

/-- Model of Python `int(s)` on the strings this program feeds it (an
optional sign followed by decimal digits); `none` models `ValueError`. -/
def pyInt (s : String) : Option Int :=
  pyIntAux s.data

/-- Python negative index `l[-2]`: `none` models `IndexError`. -/
def pyIdxNeg2 (l : List String) : Option String :=
  if 2 ≤ l.length then l.get? (l.length - 2) else none

/-!  ## The source functions  -/

/-- `pts[1], pts[3]` of `line.split()` in `double_interface_generator`:
`none` models the `IndexError` a short line would raise. -/
def parseNameIp (line : String) : Option (String × String) :=
  match (pySplitWs line).get? 1, (pySplitWs line).get? 3 with
  | some n, some ip => some (n, ip)
  | _, _ => none

/-- Lookup in the `processed_interfaces` dict (insertion-ordered Python
dict modelled as an association list). -/
def lookupA : List (String × List String) → String → Option (List String)
  | [], _ => none
  | (k, v) :: rest, name => if k = name then some v else lookupA rest name

/-- Update of an existing key in the `processed_interfaces` dict. -/
def updateA : List (String × List String) → String → List String → List (String × List String)
  | [], _, _ => []
  | (k, v) :: rest, name, nv =>
    if k = name then (k, nv) :: rest else (k, v) :: updateA rest name nv

/-- The loop body of `double_interface_generator`, processing the listing
lines against the `processed_interfaces` state.  Returns the yielded
tasks `(name, ip_1, ip_2)` in yield order together with the interface
names warned about (one entry per warning), or an error when a line has
too few tokens (Python `IndexError`). -/
def digAux : List String → List (String × List String) →
    Except String (List (String × String × String) × List String)
  | [], _ => Except.ok ([], [])
  | line :: rest, processed =>
    match parseNameIp line with
    | none => Except.error "IndexError: list index out of range"
    | some (name, ip) =>
      match lookupA processed name with
      | none => digAux rest (processed ++ [(name, [ip])])
      | some ips =>
        match digAux rest (updateA processed name (ips ++ [ip])) with
        | Except.error e => Except.error e
        | Except.ok (ts, ws) =>
          match ips ++ [ip] with
          | [a, b] => Except.ok ((name, a, b) :: ts, ws)
          | l => if 2 < l.length then Except.ok (ts, name :: ws) else Except.ok (ts, ws)

/-- `double_interface_generator(interfaces)`: all tasks yielded by the
generator, in order, together with the duplicate warnings. -/
def double_interface_generator (interfaces : String) :
    Except String (List (String × String × String) × List String) :=
  digAux (splitlines interfaces) []

/-- The loop of `get_current_ip` over the config lines. -/
def get_current_ip_lines : List String → Option String
  | [] => none
  | l :: rest =>
    let line := pyStrip l
    if line = "" then get_current_ip_lines rest
    else if pyStartswith line "#" then get_current_ip_lines rest
    else if pyStartswith line "Address=" then (pySplitC line '=').getD 1 ""
    else get_current_ip_lines rest

/-- `get_current_ip(config)`: the first `Address=` value of the config,
`none` when there is none (the Python function falls off the loop and
returns `None`). -/
def get_current_ip (config : String) : Option String :=
  get_current_ip_lines (splitlines config)

/-- `get_new_ip(old_ip, ip_addr_1, ip_addr_2)`.  The Python parameter
`old_ip` receives either a string or `None` (the result of
`get_current_ip`); the dynamic value is modelled as `Option String`, and
Python `==` between `None` and a string is `False`. -/
def get_new_ip (old_ip : Option String) (ip_addr_1 ip_addr_2 : String) : String :=
  if old_ip = some ip_addr_2 then ip_addr_1 else ip_addr_2

/-- `get_new_gateway(ip_with_mask)`:
`'.'.join(ip_with_mask.split('/')[0].split('.')[:-1]) + '.1'`. -/
def get_new_gateway (ip_with_mask : String) : String :=
  pyJoin "." ((pySplitC ((pySplitC ip_with_mask '/').headD "") '.').dropLast) ++ ".1"

/-- `get_new_table(ip_with_mask)`:
`100 + int(ip_with_mask.split('/')[0].split('.')[-2])`; `none` models the
`IndexError`/`ValueError` a malformed address would raise. -/
def get_new_table (ip_with_mask : String) : Option Int :=
  (pyIdxNeg2 (pySplitC ((pySplitC ip_with_mask '/').headD "") '.')).bind
    (fun o => (pyInt o).map (fun octet => 100 + octet))

/-- The loop body of `rewrite_config_str`, applied to one line. -/
def rewriteLine (ip gateway : String) (table_num : Int) (line : String) : String :=
  if pyStartswith line "Address=" then "Address=" ++ ip
  else if pyStartswith line "Gateway=" then "Gateway=" ++ gateway
  else if pyStartswith line "Table=" then "Table=" ++ intToDecStr table_num
  else if pyStartswith line "From=" then "From=" ++ ip
  else line

/-- `rewrite_config_str(config, ip, gateway, table_num)`. -/
def rewrite_config_str (config ip gateway : String) (table_num : Int) : String :=
  pyJoin "\n" ((splitlines config).map (rewriteLine ip gateway table_num))

/-- The pure compute section of `change_config`: from the config text read
by `read_config` and the two candidate addresses to the config text passed
to `write_config`; `none` models a derivation error raised in between. -/
def change_config (conf first_ip second_ip : String) : Option String :=
  let old_ip := get_current_ip conf
  let real_ip := get_new_ip old_ip first_ip second_ip
  let real_gateway := get_new_gateway real_ip
  (get_new_table real_ip).map
    (fun real_table => rewrite_config_str conf real_ip real_gateway real_table)

/-!  ## Derived notions used to state the claims  -/

/-- The addresses of the listing lines naming interface `name`, in
listing order. -/
def occsOf (name : String) (lines : List String) : List String :=
  lines.filterMap (fun l =>
    match parseNameIp l with
    | some (n, ip) => if n = name then some ip else none
    | none => none)

/-- Modelled from the spec: `extractCurrentAddress` per the spec's words,
where the value portion of an `Address=` line is everything after the
first `'='` (the line, stripped, minus the 8-character key `"Address="`).
Used to compare the spec's extraction contract with `get_current_ip`. -/
def extractCurrentAddressSpec (config : String) : Option String :=
  (((splitlines config).map pyStrip).find? (fun t => pyStartswith t "Address=")).map
    (fun t => (t.data.drop 8).asString)

/-!  ## Generic helper lemmas  -/

theorem asString_data (l : List Char) : l.asString.data = l := rfl

theorem data_asString (s : String) : s.data.asString = s := by
  cases s
  rfl

theorem data_inj {s t : String} (h : s.data = t.data) : s = t := by
  cases s
  cases t
  exact congrArg String.mk h

theorem mem_of_getLast?_eq {α : Type} {l : List α} {a : α} (h : l.getLast? = some a) :
    a ∈ l := by
  induction l with
  | nil => simp at h
  | cons x xs ih =>
    cases xs with
    | nil => simp_all
    | cons y ys =>
      rw [List.getLast?_cons_cons] at h
      exact List.mem_cons_of_mem x (ih h)

theorem listStarts_cons {p : Char} {ps cs : List Char} (h : listStarts (p :: ps) cs = true) :
    ∃ tl, cs = p :: tl ∧ listStarts ps tl = true := by
  cases cs with
  | nil => simp [listStarts] at h
  | cons c tl =>
    simp only [listStarts, Bool.and_eq_true, decide_eq_true_eq] at h
    exact ⟨tl, by rw [h.1], h.2⟩

theorem pyStartswith_head {s : String} {p : Char} {ps : List Char}
    (h : pyStartswith s (String.mk (p :: ps)) = true) :
    ∃ tl, s.data = p :: tl := by
  obtain ⟨tl, htl, _⟩ := listStarts_cons h
  exact ⟨tl, htl⟩

/-- Two of the four rewrite keys never match the same line: their first
characters differ. -/
theorem pyStartswith_ne_of_head {s : String} {p q : Char} {ps qs : List Char}
    (h : pyStartswith s (String.mk (p :: ps)) = true) (hpq : q ≠ p) :
    pyStartswith s (String.mk (q :: qs)) = false := by
  obtain ⟨tl, htl⟩ := pyStartswith_head h
  unfold pyStartswith
  rw [htl]
  simp [listStarts, hpq]

/-!  ## C1: selectNewAddress disambiguation  -/

/-- C1: for all strings `old`, `a`, `b`, `get_new_ip old a b` returns `a`
when `old == b`, and returns `b` in every other case, including when `old`
equals neither candidate. -/
theorem spec_C1 (old a b : String) :
    (old = b → get_new_ip (some old) a b = a) ∧
    (old ≠ b → get_new_ip (some old) a b = b) := by
  constructor
  · intro h
    simp [get_new_ip, h]
  · intro h
    simp [get_new_ip, h]

theorem spec_C1_witness :
    get_new_ip (some "10.0.0.2/24") "10.0.0.1/24" "10.0.0.2/24" = "10.0.0.1/24" ∧
    get_new_ip (some "10.0.0.9/24") "10.0.0.1/24" "10.0.0.2/24" = "10.0.0.2/24" :=
  ⟨(spec_C1 "10.0.0.2/24" "10.0.0.1/24" "10.0.0.2/24").1 rfl,
   (spec_C1 "10.0.0.9/24" "10.0.0.1/24" "10.0.0.2/24").2 (by decide)⟩

theorem starts_head_false (c d : Char) (p q : List Char) {s : String}
    (h : listStarts (c :: p) s.data = true) (hne : d ≠ c) :
    listStarts (d :: q) s.data = false := by
  obtain ⟨tl, htl, _⟩ := listStarts_cons h
  rw [htl]
  simp [listStarts, hne]

/-!  ## C3: field-preserving rewrite  -/

/-- C3: for every config document (sequence of lines) and every derived
routing, the rewrite keeps exactly the same number of lines in the same
order; every `Address=` line becomes `Address=<ip>`, every `Gateway=`
line `Gateway=<gateway>`, every `Table=` line `Table=<tableId>`, every
`From=` line `From=<ip>`, and a line starting with none of the four
prefixes is byte-identical at the same position.  `rewrite_config_str`
is exactly this map over the `splitlines` of the document, joined back
with newlines, so no line is added, removed, or synthesized. -/
theorem spec_C3 (ls : List String) (ip gw : String) (t : Int) :
    (ls.map (rewriteLine ip gw t)).length = ls.length ∧
    (∀ i line, ls.get? i = some line →
      ((pyStartswith line "Address=" = true →
          (ls.map (rewriteLine ip gw t)).get? i = some ("Address=" ++ ip)) ∧
       (pyStartswith line "Gateway=" = true →
          (ls.map (rewriteLine ip gw t)).get? i = some ("Gateway=" ++ gw)) ∧
       (pyStartswith line "Table=" = true →
          (ls.map (rewriteLine ip gw t)).get? i = some ("Table=" ++ intToDecStr t)) ∧
       (pyStartswith line "From=" = true →
          (ls.map (rewriteLine ip gw t)).get? i = some ("From=" ++ ip)) ∧
       (pyStartswith line "Address=" = false → pyStartswith line "Gateway=" = false →
        pyStartswith line "Table=" = false → pyStartswith line "From=" = false →
          (ls.map (rewriteLine ip gw t)).get? i = some line))) ∧
    (∀ config, rewrite_config_str config ip gw t =
      pyJoin "\n" ((splitlines config).map (rewriteLine ip gw t))) := by
  refine ⟨List.length_map ls _, ?_, fun _ => rfl⟩
  intro i line hls
  have hmap : (ls.map (rewriteLine ip gw t)).get? i = (ls.get? i).map (rewriteLine ip gw t) :=
    List.get?_map _ _ _
  refine ⟨?_, ?_, ?_, ?_, ?_⟩
  · intro h
    rw [hmap, hls]
    simp [rewriteLine, h]
  · intro h
    have hA : pyStartswith line "Address=" = false :=
      starts_head_false 'G' 'A' "ateway=".data "ddress=".data h (by decide)
    rw [hmap, hls]
    simp [rewriteLine, h, hA]
  · intro h
    have hA : pyStartswith line "Address=" = false :=
      starts_head_false 'T' 'A' "able=".data "ddress=".data h (by decide)
    have hG : pyStartswith line "Gateway=" = false :=
      starts_head_false 'T' 'G' "able=".data "ateway=".data h (by decide)
    rw [hmap, hls]
    simp [rewriteLine, h, hA, hG]
  · intro h
    have hA : pyStartswith line "Address=" = false :=
      starts_head_false 'F' 'A' "rom=".data "ddress=".data h (by decide)
    have hG : pyStartswith line "Gateway=" = false :=
      starts_head_false 'F' 'G' "rom=".data "ateway=".data h (by decide)
    have hT : pyStartswith line "Table=" = false :=
      starts_head_false 'F' 'T' "rom=".data "able=".data h (by decide)
    rw [hmap, hls]
    simp [rewriteLine, h, hA, hG, hT]
  · intro hA hG hT hF
    rw [hmap, hls]
    simp [rewriteLine, hA, hG, hT, hF]

theorem spec_C3_witness :
    ((["Address=0.0.0.0/24", "# keep", "Gateway=9.9.9.9", "", "Stuff=1"].map
        (rewriteLine "1.2.3.4/24" "1.2.3.1" 103)).get? 0 = some "Address=1.2.3.4/24") ∧
    ((["Address=0.0.0.0/24", "# keep", "Gateway=9.9.9.9", "", "Stuff=1"].map
        (rewriteLine "1.2.3.4/24" "1.2.3.1" 103)).get? 1 = some "# keep") ∧
    ((["Address=0.0.0.0/24", "# keep", "Gateway=9.9.9.9", "", "Stuff=1"].map
        (rewriteLine "1.2.3.4/24" "1.2.3.1" 103)).get? 2 = some "Gateway=1.2.3.1") :=
  ⟨((spec_C3 ["Address=0.0.0.0/24", "# keep", "Gateway=9.9.9.9", "", "Stuff=1"]
      "1.2.3.4/24" "1.2.3.1" 103).2.1 0 "Address=0.0.0.0/24" rfl).1 (by decide),
   ((spec_C3 ["Address=0.0.0.0/24", "# keep", "Gateway=9.9.9.9", "", "Stuff=1"]
      "1.2.3.4/24" "1.2.3.1" 103).2.1 1 "# keep" rfl).2.2.2.2
      (by decide) (by decide) (by decide) (by decide),
   ((spec_C3 ["Address=0.0.0.0/24", "# keep", "Gateway=9.9.9.9", "", "Stuff=1"]
      "1.2.3.4/24" "1.2.3.1" 103).2.1 2 "Gateway=9.9.9.9" rfl).2.1 (by decide)⟩

/-!  ## Split/join lemmas for address strings  -/

theorem pySplitCAux_no_sep (sep : Char) (xs : List Char) (acc : List Char) (h : sep ∉ xs) :
    pySplitCAux sep xs acc = [(acc.reverse ++ xs).asString] := by
  induction xs generalizing acc with
  | nil => simp [pySplitCAux]
  | cons c rest ih =>
    have hc : c ≠ sep := by
      rintro rfl
      exact h (List.mem_cons_self _ _)
    have hr : sep ∉ rest := fun hm => h (List.mem_cons_of_mem _ hm)
    simp only [pySplitCAux, if_neg hc, ih _ hr, List.reverse_cons, List.append_assoc,
      List.singleton_append]

theorem pySplitCAux_sep_split (sep : Char) (xs ys : List Char) (acc : List Char)
    (h : sep ∉ xs) :
    pySplitCAux sep (xs ++ sep :: ys) acc =
      (acc.reverse ++ xs).asString :: pySplitCAux sep ys [] := by
  induction xs generalizing acc with
  | nil => simp [pySplitCAux]
  | cons c rest ih =>
    have hc : c ≠ sep := by
      rintro rfl
      exact h (List.mem_cons_self _ _)
    have hr : sep ∉ rest := fun hm => h (List.mem_cons_of_mem _ hm)
    simp only [List.cons_append, pySplitCAux, if_neg hc, List.append_eq, ih _ hr,
      List.reverse_cons, List.append_assoc, List.singleton_append, List.nil_append]

theorem mem_pyJoin_data (sep : Char) (sepStr : String) (hs : sepStr.data = [sep])
    (parts : List String) (c : Char) (hc : c ∈ (pyJoin sepStr parts).data) :
    c = sep ∨ ∃ p ∈ parts, c ∈ p.data := by
  induction parts with
  | nil => simp [pyJoin] at hc
  | cons p rest ih =>
    cases rest with
    | nil =>
      right
      exact ⟨p, List.mem_cons_self _ _, hc⟩
    | cons p2 r2 =>
      rw [show pyJoin sepStr (p :: p2 :: r2) = p ++ sepStr ++ pyJoin sepStr (p2 :: r2) from rfl,
        String.data_append, String.data_append, hs] at hc
      rcases List.mem_append.1 hc with h1 | h2
      · rcases List.mem_append.1 h1 with h3 | h4
        · exact Or.inr ⟨p, List.mem_cons_self _ _, h3⟩
        · exact Or.inl (List.mem_singleton.1 h4)
      · rcases ih h2 with h5 | ⟨q, hq, hcq⟩
        · exact Or.inl h5
        · exact Or.inr ⟨q, List.mem_cons_of_mem _ hq, hcq⟩

theorem pySplitC_pyJoin (sep : Char) (sepStr : String) (hs : sepStr.data = [sep])
    (parts : List String) (hne : parts ≠ []) (hp : ∀ p ∈ parts, sep ∉ p.data) :
    pySplitC (pyJoin sepStr parts) sep = parts := by
  induction parts with
  | nil => cases hne rfl
  | cons p rest ih =>
    cases rest with
    | nil =>
      show pySplitCAux sep (pyJoin sepStr [p]).data [] = [p]
      rw [show pyJoin sepStr [p] = p from rfl,
        pySplitCAux_no_sep sep p.data [] (hp p (List.mem_cons_self _ _))]
      simp [data_asString]
    | cons p2 r2 =>
      show pySplitCAux sep (pyJoin sepStr (p :: p2 :: r2)).data [] = p :: p2 :: r2
      rw [show pyJoin sepStr (p :: p2 :: r2) = p ++ sepStr ++ pyJoin sepStr (p2 :: r2) from rfl,
        String.data_append, String.data_append, hs, List.append_assoc, List.singleton_append,
        pySplitCAux_sep_split sep p.data _ [] (hp p (List.mem_cons_self _ _))]
      rw [List.reverse_nil, List.nil_append, data_asString]
      exact congrArg (p :: ·)
        (ih (by simp) (fun q hq => hp q (List.mem_cons_of_mem _ hq)))

/-- `ip_with_mask.split('/')[0]` of a string built as `body ++ "/" ++ m`
with no `'/'` in `body` is `body`. -/
theorem split_slash_head (body m : String) (hb : '/' ∉ body.data) :
    (pySplitC (body ++ "/" ++ m) '/').headD "" = body := by
  show (pySplitCAux '/' (body ++ "/" ++ m).data []).headD "" = body
  rw [String.data_append, String.data_append,
    show ("/" : String).data = ['/'] from rfl, List.append_assoc, List.singleton_append,
    pySplitCAux_sep_split '/' body.data m.data [] hb]
  rw [List.reverse_nil, List.nil_append, data_asString]
  rfl

/-- `get_new_gateway` on any address whose pre-mask part is a dot-join of
separator-free components: the last component is dropped and `".1"` is
appended, whatever the number of components. -/
theorem get_new_gateway_parts (parts : List String) (m : String) (hne : parts ≠ [])
    (hp : ∀ p ∈ parts, '.' ∉ p.data ∧ '/' ∉ p.data) :
    get_new_gateway (pyJoin "." parts ++ "/" ++ m) =
      pyJoin "." parts.dropLast ++ ".1" := by
  have hnoslash : '/' ∉ (pyJoin "." parts).data := by
    intro hmem
    rcases mem_pyJoin_data '.' "." rfl parts '/' hmem with h | ⟨p, hp2, hcp⟩
    · exact absurd h (by decide)
    · exact (hp p hp2).2 hcp
  unfold get_new_gateway
  rw [split_slash_head (pyJoin "." parts) m hnoslash,
    pySplitC_pyJoin '.' "." rfl parts hne (fun p hq => (hp p hq).1)]

/-!  ## C5 / C7: gateway derivation  -/

/-- C5: on a four-octet address-with-mask built from dot-free, slash-free
octet strings, `get_new_gateway` strips the mask, drops the last octet and
appends `.1`; in particular the two concrete derivations of the spec. -/
theorem spec_C5 (a b c d m : String)
    (ha : '.' ∉ a.data ∧ '/' ∉ a.data) (hb : '.' ∉ b.data ∧ '/' ∉ b.data)
    (hc : '.' ∉ c.data ∧ '/' ∉ c.data) (hd : '.' ∉ d.data ∧ '/' ∉ d.data) :
    get_new_gateway (a ++ "." ++ b ++ "." ++ c ++ "." ++ d ++ "/" ++ m) =
      a ++ "." ++ b ++ "." ++ c ++ ".1" ∧
    get_new_gateway "192.168.11.100/24" = "192.168.11.1" ∧
    get_new_gateway "10.0.0.1/8" = "10.0.0.1" := by
  refine ⟨?_, by decide, by decide⟩
  have hall : ∀ p ∈ [a, b, c, d], '.' ∉ p.data ∧ '/' ∉ p.data := by
    intro p hp
    simp only [List.mem_cons, List.not_mem_nil, or_false] at hp
    rcases hp with rfl | rfl | rfl | rfl
    exacts [ha, hb, hc, hd]
  have hj : a ++ "." ++ b ++ "." ++ c ++ "." ++ d = pyJoin "." [a, b, c, d] := by
    simp [pyJoin, String.append_assoc]
  have hj3 : pyJoin "." [a, b, c] = a ++ "." ++ b ++ "." ++ c := by
    simp [pyJoin, String.append_assoc]
  rw [hj, get_new_gateway_parts [a, b, c, d] m (by simp) hall]
  rw [show ([a, b, c, d].dropLast) = [a, b, c] from rfl, hj3]

theorem spec_C5_witness :
    get_new_gateway ("192" ++ "." ++ "168" ++ "." ++ "11" ++ "." ++ "100" ++ "/" ++ "24") =
      "192" ++ "." ++ "168" ++ "." ++ "11" ++ ".1" :=
  (spec_C5 "192" "168" "11" "100" "24" (by decide) (by decide) (by decide) (by decide)).1

/-- C7 counterexample: on an address with three dot-separated octets
(after stripping the mask), `get_new_gateway` does not fail: it returns
the string `"1.2.1"`.  The function is total — Python's `split`, slice
and `join` never raise — so no malformed-input error exists. -/
theorem spec_C7_cex :
    (pySplitC ((pySplitC "1.2.3/24" '/').headD "") '.').length = 3 ∧
    get_new_gateway "1.2.3/24" = "1.2.1" := by
  exact ⟨by decide, by decide⟩

/-- C7 amended: `get_new_gateway` never fails; for an address whose
pre-mask part has any number of dot-free, slash-free components, it
returns the dot-join of all but the last component followed by `".1"`,
with no octet-count validation. -/
theorem spec_C7_amended (parts : List String) (m : String) (hne : parts ≠ [])
    (hp : ∀ p ∈ parts, '.' ∉ p.data ∧ '/' ∉ p.data) :
    get_new_gateway (pyJoin "." parts ++ "/" ++ m) =
      pyJoin "." parts.dropLast ++ ".1" :=
  get_new_gateway_parts parts m hne hp

theorem spec_C7_amended_witness :
    get_new_gateway (pyJoin "." ["1", "2", "3"] ++ "/" ++ "24") =
      pyJoin "." (["1", "2", "3"].dropLast) ++ ".1" :=
  spec_C7_amended ["1", "2", "3"] "24" (by decide) (by decide)

/-!  ## C6: table derivation  -/

theorem pyInt_mem_chars {s : String} {k : Int} (h : pyInt s = some k) (c : Char)
    (hc : c ∈ s.data) : c.isDigit = true ∨ c = '-' ∨ c = '+' := by
  unfold pyInt at h
  rcases hd : s.data with _ | ⟨c0, rest⟩
  · rw [hd] at hc
    exact absurd hc (List.not_mem_nil c)
  · rw [hd] at h hc
    simp only [pyIntAux] at h
    split_ifs at h with h1 h2
    · have hdig : rest ≠ [] ∧ rest.all Char.isDigit := by
        rw [parseDigits] at h
        split_ifs at h with hcon
        · exact hcon
        · simp at h
      rcases List.mem_cons.mp hc with rfl | hmem
      · exact Or.inr (Or.inl h1)
      · exact Or.inl (by simpa using List.all_eq_true.mp hdig.2 c hmem)
    · have hdig : rest ≠ [] ∧ rest.all Char.isDigit := by
        rw [parseDigits] at h
        split_ifs at h with hcon
        · exact hcon
        · simp at h
      rcases List.mem_cons.mp hc with rfl | hmem
      · exact Or.inr (Or.inr h2)
      · exact Or.inl (by simpa using List.all_eq_true.mp hdig.2 c hmem)
    · have hdig : (c0 :: rest) ≠ [] ∧ (c0 :: rest).all Char.isDigit := by
        rw [parseDigits] at h
        split_ifs at h with hcon
        · exact hcon
        · simp at h
      exact Or.inl (by simpa using List.all_eq_true.mp hdig.2 c hc)

theorem pyInt_no_dot_slash {s : String} {k : Int} (h : pyInt s = some k) :
    '.' ∉ s.data ∧ '/' ∉ s.data := by
  constructor <;> intro hmem
  · rcases pyInt_mem_chars h '.' hmem with h1 | h1 | h1 <;> exact absurd h1 (by decide)
  · rcases pyInt_mem_chars h '/' hmem with h1 | h1 | h1 <;> exact absurd h1 (by decide)

/-- C6: on a four-octet address-with-mask whose third octet parses as an
integer `k` with `0 ≤ k ≤ 255`, `get_new_table` returns `100 + k`, which
lies in `[100, 355]`; in particular the three concrete derivations of the
spec — `355` is produced, not an error. -/
theorem spec_C6 (a b c d m : String) (k : Int)
    (ha : '.' ∉ a.data ∧ '/' ∉ a.data) (hb : '.' ∉ b.data ∧ '/' ∉ b.data)
    (hd : '.' ∉ d.data ∧ '/' ∉ d.data)
    (hk : pyInt c = some k) (hk0 : 0 ≤ k) (hk255 : k ≤ 255) :
    get_new_table (a ++ "." ++ b ++ "." ++ c ++ "." ++ d ++ "/" ++ m) = some (100 + k) ∧
    100 ≤ 100 + k ∧ 100 + k ≤ 355 ∧
    get_new_table "192.168.13.100/24" = some 113 ∧
    get_new_table "192.168.0.5/24" = some 100 ∧
    get_new_table "192.168.255.5/24" = some 355 := by
  refine ⟨?_, by omega, by omega, by decide, by decide, by decide⟩
  have hcc : '.' ∉ c.data ∧ '/' ∉ c.data := pyInt_no_dot_slash hk
  have hall : ∀ p ∈ [a, b, c, d], '.' ∉ p.data ∧ '/' ∉ p.data := by
    intro p hp
    simp only [List.mem_cons, List.not_mem_nil, or_false] at hp
    rcases hp with rfl | rfl | rfl | rfl
    exacts [ha, hb, hcc, hd]
  have hnoslash : '/' ∉ (pyJoin "." [a, b, c, d]).data := by
    intro hmem
    rcases mem_pyJoin_data '.' "." rfl [a, b, c, d] '/' hmem with h | ⟨p, hp2, hcp⟩
    · exact absurd h (by decide)
    · exact (hall p hp2).2 hcp
  have hj : a ++ "." ++ b ++ "." ++ c ++ "." ++ d = pyJoin "." [a, b, c, d] := by
    simp [pyJoin, String.append_assoc]
  unfold get_new_table
  rw [hj, split_slash_head (pyJoin "." [a, b, c, d]) m hnoslash,
    pySplitC_pyJoin '.' "." rfl [a, b, c, d] (by simp) (fun p hp => (hall p hp).1)]
  simp [pyIdxNeg2, hk]

theorem spec_C6_witness :
    get_new_table ("192" ++ "." ++ "168" ++ "." ++ "13" ++ "." ++ "100" ++ "/" ++ "24") =
      some (100 + 13) ∧ 100 ≤ (100 : Int) + 13 ∧ (100 : Int) + 13 ≤ 355 :=
  ⟨((spec_C6 "192" "168" "13" "100" "24" 13 (by decide) (by decide) (by decide)
      (by decide) (by decide) (by decide)).1),
   ((spec_C6 "192" "168" "13" "100" "24" 13 (by decide) (by decide) (by decide)
      (by decide) (by decide) (by decide)).2.1),
   ((spec_C6 "192" "168" "13" "100" "24" 13 (by decide) (by decide) (by decide)
      (by decide) (by decide) (by decide)).2.2.1)⟩

/-!  ## C8: current-address extraction  -/

/-- C8 counterexample: on the config line `Address=a=b` the value portion
after the key is `a=b`, but `get_current_ip` returns only `a` — Python's
`line.split('=')[1]` truncates the value at the second `'='`. -/
theorem spec_C8_cex :
    get_current_ip "Address=a=b" = some "a" ∧
    extractCurrentAddressSpec "Address=a=b" = some "a=b" ∧
    get_current_ip "Address=a=b" ≠ extractCurrentAddressSpec "Address=a=b" := by
  refine ⟨by decide, by decide, by decide⟩

theorem get_current_ip_lines_eq (ls : List String) :
    get_current_ip_lines ls =
      ((ls.map pyStrip).find? (fun t => pyStartswith t "Address=")).map
        (fun t => (pySplitC t '=').getD 1 "") := by
  induction ls with
  | nil => rfl
  | cons l rest ih =>
    by_cases hA : pyStartswith (pyStrip l) "Address=" = true
    · have hne : pyStrip l ≠ "" := by
        intro h0
        rw [h0] at hA
        exact absurd hA (by decide)
      have hA' : listStarts ('A' :: "ddress=".data) (pyStrip l).data = true := hA
      have hnotHash : pyStartswith (pyStrip l) "#" = false :=
        starts_head_false 'A' '#' "ddress=".data [] hA' (by decide)
      simp only [get_current_ip_lines, List.map_cons, List.find?_cons, if_neg hne, hnotHash,
        Bool.false_eq_true, if_false, hA, if_true]
      rfl
    · have hskip : get_current_ip_lines (l :: rest) = get_current_ip_lines rest := by
        simp only [get_current_ip_lines]
        split_ifs with h1 h2 <;> rfl
      have hA' : pyStartswith (pyStrip l) "Address=" = false := by
        simpa using hA
      rw [hskip, ih]
      simp only [List.map_cons, List.find?_cons, hA']

/-- C8 amended: `get_current_ip` skips blank lines and comment lines,
and on the first stripped line starting with `Address=` returns the
portion between the first and second `'='` of that line (the full value
whenever the value contains no `'='`); it returns `none` when no such
line exists. -/
theorem spec_C8_amended (config : String) :
    get_current_ip config =
      (((splitlines config).map pyStrip).find? (fun t => pyStartswith t "Address=")).map
        (fun t => (pySplitC t '=').getD 1 "") :=
  get_current_ip_lines_eq (splitlines config)

/-!  ## C9: Address-less config is reconciled, not rejected  -/

theorem get_current_ip_lines_none (ls : List String)
    (h : ∀ l ∈ ls, pyStartswith (pyStrip l) "Address=" = false) :
    get_current_ip_lines ls = none := by
  induction ls with
  | nil => rfl
  | cons l rest ih =>
    have hl := h l (List.mem_cons_self _ _)
    have hr : ∀ x ∈ rest, pyStartswith (pyStrip x) "Address=" = false :=
      fun x hx => h x (List.mem_cons_of_mem _ hx)
    simp only [get_current_ip_lines]
    split_ifs with h1 h2 h3
    · exact ih hr
    · exact ih hr
    · rw [hl] at h3
      exact absurd h3 (by decide)
    · exact ih hr

/-- C9: when no stripped line of the stored config starts with
`Address=`, extraction yields `none`; `none` never equals the second
candidate, so the pipeline selects the second candidate and proceeds to
derive and rewrite with it, producing a rewritten config rather than an
error (provided only that the candidate's table derivation succeeds). -/
theorem spec_C9 (conf a b : String) (t : Int)
    (hA : ∀ l ∈ splitlines conf, pyStartswith (pyStrip l) "Address=" = false)
    (ht : get_new_table b = some t) :
    get_current_ip conf = none ∧
    get_new_ip (get_current_ip conf) a b = b ∧
    change_config conf a b = some (rewrite_config_str conf b (get_new_gateway b) t) := by
  have h0 : get_current_ip conf = none := get_current_ip_lines_none (splitlines conf) hA
  refine ⟨h0, ?_, ?_⟩
  · rw [h0]
    simp [get_new_ip]
  · simp only [change_config, h0, get_new_ip, if_neg (by simp : ¬(none : Option String) = some b)]
    rw [ht]
    rfl

theorem spec_C9_witness :
    get_current_ip "[Match]\nName=eth1" = none ∧
    get_new_ip (get_current_ip "[Match]\nName=eth1") "10.0.0.1/24" "10.0.0.2/24" =
      "10.0.0.2/24" ∧
    change_config "[Match]\nName=eth1" "10.0.0.1/24" "10.0.0.2/24" =
      some (rewrite_config_str "[Match]\nName=eth1" "10.0.0.2/24"
        (get_new_gateway "10.0.0.2/24") 100) :=
  spec_C9 "[Match]\nName=eth1" "10.0.0.1/24" "10.0.0.2/24" 100 (by decide) (by decide)

/-!  ## C10: the rewrite and trailing newlines  -/

theorem getLast?_append_right {α : Type} (l1 l2 : List α) (h : l2 ≠ []) :
    (l1 ++ l2).getLast? = l2.getLast? := by
  induction l1 with
  | nil => rfl
  | cons x xs ih =>
    have h2 : xs ++ l2 ≠ [] := fun hh => h (List.append_eq_nil.mp hh).2
    rcases he : xs ++ l2 with _ | ⟨y, ys⟩
    · exact absurd he h2
    · calc ((x :: xs) ++ l2).getLast? = (x :: (xs ++ l2)).getLast? := by rw [List.cons_append]
        _ = (xs ++ l2).getLast? := by rw [he]; exact List.getLast?_cons_cons
        _ = l2.getLast? := ih

/-- Like `splitlinesAux` but always emitting the final accumulated
segment; `splitlinesAux` on input ending in a newline coincides with
this on the input without that newline. -/
def splitAllAux : List Char → List Char → List String
  | [], acc => [acc.reverse.asString]
  | c :: rest, acc =>
    if c = '\n' then acc.reverse.asString :: splitAllAux rest []
    else splitAllAux rest (c :: acc)

theorem splitlinesAux_append_nl (u : List Char) (acc : List Char) :
    splitlinesAux (u ++ ['\n']) acc = splitAllAux u acc := by
  induction u generalizing acc with
  | nil => simp [splitlinesAux, splitAllAux]
  | cons c rest ih =>
    by_cases hc : c = '\n'
    · subst hc
      simp [splitlinesAux, splitAllAux, ih]
    · simp [splitlinesAux, splitAllAux, hc, ih]

theorem splitAllAux_ne_nil (cs acc : List Char) : splitAllAux cs acc ≠ [] := by
  induction cs generalizing acc with
  | nil => simp [splitAllAux]
  | cons c rest ih =>
    by_cases hc : c = '\n' <;> simp [splitAllAux, hc, ih]

theorem digitChar_ne_nl (n : Nat) : digitChar n ≠ '\n' := by
  unfold digitChar
  split_ifs <;> decide

theorem natToDecAux_shape (fuel : Nat) : ∀ (n : Nat) (acc : List Char),
    ∃ l, natToDecAux fuel n acc = l ++ acc ∧ (∀ c ∈ l, c ≠ '\n') ∧ (fuel ≠ 0 → l ≠ []) := by
  induction fuel with
  | zero =>
    intro n acc
    exact ⟨[], rfl, by simp, fun h => absurd rfl h⟩
  | succ fuel ih =>
    intro n acc
    by_cases hn : n < 10
    · refine ⟨[digitChar (n % 10)], by simp [natToDecAux, hn], ?_, fun _ => by simp⟩
      intro c hc
      rw [List.mem_singleton.mp hc]
      exact digitChar_ne_nl _
    · obtain ⟨l, hl, hmem, _⟩ := ih (n / 10) (digitChar (n % 10) :: acc)
      refine ⟨l ++ [digitChar (n % 10)], ?_, ?_, fun _ => by simp⟩
      · rw [show natToDecAux (fuel + 1) n acc =
            natToDecAux fuel (n / 10) (digitChar (n % 10) :: acc) by simp [natToDecAux, hn]]
        rw [hl, List.append_assoc, List.singleton_append]
      · intro c hc
        rcases List.mem_append.mp hc with h1 | h1
        · exact hmem c h1
        · rw [List.mem_singleton.mp h1]
          exact digitChar_ne_nl _

theorem intToDecStr_shape (t : Int) :
    (intToDecStr t).data ≠ [] ∧ (intToDecStr t).data.getLast? ≠ some '\n' := by
  cases t with
  | ofNat n =>
    obtain ⟨l, hl, hmem, hne⟩ := natToDecAux_shape (n + 1) n []
    have hd : (intToDecStr (Int.ofNat n)).data = l := by
      show (natToDecAux (n + 1) n []).asString.data = l
      rw [asString_data, hl, List.append_nil]
    rw [hd]
    refine ⟨hne (by simp), fun hsome => ?_⟩
    exact hmem '\n' (mem_of_getLast?_eq hsome) rfl
  | negSucc n =>
    obtain ⟨l, hl, hmem, hne⟩ := natToDecAux_shape (n + 1 + 1) (n + 1) []
    have hd : (intToDecStr (Int.negSucc n)).data = '-' :: l := by
      show ("-" ++ natToDecStr (n + 1)).data = '-' :: l
      rw [String.data_append]
      show '-' :: (natToDecAux (n + 1 + 1) (n + 1) []).asString.data = '-' :: l
      rw [asString_data, hl, List.append_nil]
    rw [hd]
    have hlne : l ≠ [] := hne (by simp)
    refine ⟨by simp, fun hsome => ?_⟩
    rw [show ('-' :: l) = ['-'] ++ l from rfl, getLast?_append_right ['-'] l hlne] at hsome
    exact hmem '\n' (mem_of_getLast?_eq hsome) rfl

theorem append_last_ne_nl (p s : String) (hp : p.data.getLast? ≠ some '\n')
    (hs : s.data.getLast? ≠ some '\n') : (p ++ s).data.getLast? ≠ some '\n' := by
  rw [String.data_append]
  by_cases he : s.data = []
  · rw [he, List.append_nil]
    exact hp
  · rw [getLast?_append_right p.data s.data he]
    exact hs

theorem rewriteLine_last_ne_nl (ip gw : String) (t : Int) (line : String)
    (hip : ip.data.getLast? ≠ some '\n') (hgw : gw.data.getLast? ≠ some '\n')
    (hline : line.data.getLast? ≠ some '\n') :
    (rewriteLine ip gw t line).data.getLast? ≠ some '\n' := by
  unfold rewriteLine
  split_ifs
  · exact append_last_ne_nl "Address=" ip (by decide) hip
  · exact append_last_ne_nl "Gateway=" gw (by decide) hgw
  · exact append_last_ne_nl "Table=" (intToDecStr t) (by decide) (intToDecStr_shape t).2
  · exact append_last_ne_nl "From=" ip (by decide) hip
  · exact hline

theorem rewriteLine_eq_empty (ip gw : String) (t : Int) (line : String)
    (h : rewriteLine ip gw t line = "") : line = "" := by
  unfold rewriteLine at h
  split_ifs at h
  · have h2 := congrArg String.data h
    rw [String.data_append] at h2
    simp at h2
  · have h2 := congrArg String.data h
    rw [String.data_append] at h2
    simp at h2
  · have h2 := congrArg String.data h
    rw [String.data_append] at h2
    simp at h2
  · have h2 := congrArg String.data h
    rw [String.data_append] at h2
    simp at h2
  · exact h

theorem pyJoin_map_rewrite_last (ip gw : String) (t : Int)
    (hip : ip.data.getLast? ≠ some '\n') (hgw : gw.data.getLast? ≠ some '\n')
    (cs : List Char) : ∀ (acc : List Char), cs.getLast? ≠ some '\n' → '\n' ∉ acc →
      (pyJoin "\n" ((splitAllAux cs acc).map (rewriteLine ip gw t))).data.getLast? ≠
        some '\n' ∧
      (cs ≠ [] ∨ acc ≠ [] →
        pyJoin "\n" ((splitAllAux cs acc).map (rewriteLine ip gw t)) ≠ "") := by
  induction cs with
  | nil =>
    intro acc _ hacc
    constructor
    · show (rewriteLine ip gw t acc.reverse.asString).data.getLast? ≠ some '\n'
      refine rewriteLine_last_ne_nl ip gw t _ hip hgw ?_
      intro hsome
      have hm : '\n' ∈ acc.reverse := mem_of_getLast?_eq hsome
      exact hacc (List.mem_reverse.mp hm)
    · intro hne
      rcases hne with h | h
      · exact absurd rfl h
      · show rewriteLine ip gw t acc.reverse.asString ≠ ""
        intro h0
        have h1 := rewriteLine_eq_empty ip gw t _ h0
        have hrev : acc.reverse = [] := by
          have h2 := congrArg String.data h1
          rw [asString_data] at h2
          exact h2
        exact h (by simpa using hrev)
  | cons c rest ih =>
    intro acc hlast hacc
    by_cases hc : c = '\n'
    · subst hc
      have hrne : rest ≠ [] := by
        intro h0
        subst h0
        exact hlast rfl
      have hlast' : rest.getLast? ≠ some '\n' := by
        rcases rest with _ | ⟨y, ys⟩
        · exact absurd rfl hrne
        · rw [← List.getLast?_cons_cons]
          exact hlast
      obtain ⟨ih1, ih2⟩ := ih [] hlast' (by simp)
      have hJne : pyJoin "\n" ((splitAllAux rest []).map (rewriteLine ip gw t)) ≠ "" :=
        ih2 (Or.inl hrne)
      have hsplit : splitAllAux ('\n' :: rest) acc =
          acc.reverse.asString :: splitAllAux rest [] := by
        simp [splitAllAux]
      rw [hsplit]
      rcases hsa : splitAllAux rest [] with _ | ⟨z, zs⟩
      · exact absurd hsa (splitAllAux_ne_nil rest [])
      · rw [hsa] at ih1 hJne
        simp only [List.map_cons] at ih1 hJne ⊢
        rw [show pyJoin "\n" (rewriteLine ip gw t acc.reverse.asString ::
              rewriteLine ip gw t z :: zs.map (rewriteLine ip gw t)) =
            rewriteLine ip gw t acc.reverse.asString ++ "\n" ++
              pyJoin "\n" (rewriteLine ip gw t z :: zs.map (rewriteLine ip gw t)) from rfl]
        have hJdata :
            (pyJoin "\n" (rewriteLine ip gw t z :: zs.map (rewriteLine ip gw t))).data ≠ [] := by
          intro hh
          exact hJne (data_inj (by rw [hh]))
        have hnlJ :
            ("\n" ++ pyJoin "\n" (rewriteLine ip gw t z ::
              zs.map (rewriteLine ip gw t))).data ≠ [] := by
          rw [String.data_append]
          intro hh
          exact absurd (List.append_eq_nil.mp hh).1 (by decide)
        constructor
        · rw [String.append_assoc]
          intro hsome
          rw [String.data_append, getLast?_append_right _ _ hnlJ, String.data_append,
            getLast?_append_right _ _ hJdata] at hsome
          exact ih1 hsome
        · intro _
          intro h0
          have h2 := congrArg String.data h0
          rw [String.data_append, String.data_append] at h2
          rcases List.append_eq_nil.mp h2 with ⟨h3, _⟩
          exact absurd (List.append_eq_nil.mp h3).2 (by decide)
    · have hsplit : splitAllAux (c :: rest) acc = splitAllAux rest (c :: acc) := by
        simp [splitAllAux, hc]
      rw [hsplit]
      have hlast' : rest.getLast? ≠ some '\n' := by
        rcases rest with _ | ⟨y, ys⟩
        · simp
        · rw [← List.getLast?_cons_cons]
          exact hlast
      have hacc' : '\n' ∉ c :: acc := by
        intro hm
        rcases List.mem_cons.mp hm with h | h
        · exact hc h.symm
        · exact hacc h
      obtain ⟨ih1, ih2⟩ := ih (c :: acc) hlast' hacc'
      exact ⟨ih1, fun _ => ih2 (Or.inr (by simp))⟩

/-- C10 counterexample: the config text `"x\n\n"` ends with a newline,
yet the rewritten output `"x\n"` still ends with a newline — splitting
`"x\n\n"` yields the lines `["x", ""]`, and rejoining them restores an
inner newline at the end of the output. -/
theorem spec_C10_cex :
    ("x\n\n").data.getLast? = some '\n' ∧
    rewrite_config_str "x\n\n" "10.0.0.5/24" "10.0.0.1" 100 = "x\n" ∧
    (rewrite_config_str "x\n\n" "10.0.0.5/24" "10.0.0.1" 100).data.getLast? = some '\n' := by
  refine ⟨by decide, by decide, by decide⟩

/-- C10 amended: for every config text that ends with exactly one
trailing newline (its final character is `'\n'` and the text before it
does not itself end with `'\n'`), and whenever the new address and
gateway do not end with a newline, the rewriter's output does not end
with a newline: the rewrite splits into lines and rejoins with `'\n'`
without restoring the trailing newline it consumed.  (A text ending in
several newlines keeps all but that last one, as the counterexample
shows.) -/
theorem spec_C10_amended (config : String) (u : List Char) (ip gw : String) (t : Int)
    (hu : config.data = u ++ ['\n']) (hu2 : u.getLast? ≠ some '\n')
    (hip : ip.data.getLast? ≠ some '\n') (hgw : gw.data.getLast? ≠ some '\n') :
    (rewrite_config_str config ip gw t).data.getLast? ≠ some '\n' := by
  unfold rewrite_config_str
  rw [show splitlines config = splitlinesAux config.data [] from rfl, hu,
    splitlinesAux_append_nl u []]
  exact (pyJoin_map_rewrite_last ip gw t hip hgw u [] hu2 (by simp)).1

theorem spec_C10_amended_witness :
    (rewrite_config_str "Address=9.9.9.9/24\nTable=5\n" "10.0.0.5/24" "10.0.0.1"
      100).data.getLast? ≠ some '\n' :=
  spec_C10_amended "Address=9.9.9.9/24\nTable=5\n" ("Address=9.9.9.9/24\nTable=5").data
    "10.0.0.5/24" "10.0.0.1" 100 (by decide) (by decide) (by decide) (by decide)

/-!  ## C2: one task per duplicated interface  -/

theorem lookupA_append_other (p : List (String × List String)) (n name : String)
    (v : List String) (h : n ≠ name) :
    lookupA (p ++ [(n, v)]) name = lookupA p name := by
  induction p with
  | nil => simp [lookupA, h]
  | cons kv rest ih =>
    obtain ⟨k, w⟩ := kv
    by_cases hk : k = name <;> simp [lookupA, hk, ih]

theorem lookupA_append_self (p : List (String × List String)) (name : String)
    (v : List String) (h : lookupA p name = none) :
    lookupA (p ++ [(name, v)]) name = some v := by
  induction p with
  | nil => simp [lookupA]
  | cons kv rest ih =>
    obtain ⟨k, w⟩ := kv
    by_cases hk : k = name
    · simp [lookupA, hk] at h
    · simp only [lookupA, hk, if_false, List.cons_append] at h ⊢
      exact ih h

theorem lookupA_updateA_other (p : List (String × List String)) (n name : String)
    (v : List String) (h : n ≠ name) :
    lookupA (updateA p n v) name = lookupA p name := by
  induction p with
  | nil => simp [updateA]
  | cons kv rest ih =>
    obtain ⟨k, w⟩ := kv
    by_cases hk : k = n
    · subst hk
      simp [updateA, lookupA, h]
    · simp only [updateA, if_neg hk, lookupA]
      by_cases hk2 : k = name
      · simp [hk2]
      · simp [hk2, ih]

theorem lookupA_updateA_self (p : List (String × List String)) (name : String)
    (v w : List String) (h : lookupA p name = some w) :
    lookupA (updateA p name v) name = some v := by
  induction p with
  | nil => simp [lookupA] at h
  | cons kv rest ih =>
    obtain ⟨k, u⟩ := kv
    by_cases hk : k = name
    · simp [updateA, hk, lookupA]
    · simp only [lookupA, if_neg hk] at h
      simp only [updateA, if_neg hk, lookupA]
      exact ih h

/-- Invariant of `digAux` with respect to one tracked interface `name`:
given that the `processed_interfaces` state records exactly the
occurrences `hist` of `name` consumed so far, the run succeeds and (a)
the tasks for `name` are exactly one task made of the first two
occurrences when the total reaches two, none otherwise, and (b) `name`
is warned once per occurrence beyond the second. -/
theorem digAux_spec (lines : List String) :
    ∀ (processed : List (String × List String)) (name : String) (hist : List String),
    (∀ l ∈ lines, (parseNameIp l).isSome) →
    lookupA processed name = (if hist = [] then none else some hist) →
    ∃ ts ws, digAux lines processed = Except.ok (ts, ws) ∧
      (∀ a b r, hist.length ≤ 1 → hist ++ occsOf name lines = a :: b :: r →
        ts.filter (fun t => t.1 == name) = [(name, a, b)]) ∧
      (hist.length + (occsOf name lines).length ≤ 1 →
        ts.filter (fun t => t.1 == name) = []) ∧
      (2 ≤ hist.length → ts.filter (fun t => t.1 == name) = []) ∧
      (hist.length ≤ 2 →
        ws.count name = hist.length + (occsOf name lines).length - 2) ∧
      (2 ≤ hist.length → ws.count name = (occsOf name lines).length) := by
  induction lines with
  | nil =>
    intro processed name hist hwf hlook
    refine ⟨[], [], rfl, ?_, ?_, ?_, ?_, ?_⟩
    · intro a b r hlen happ
      rw [show occsOf name [] = [] from rfl, List.append_nil] at happ
      rw [happ] at hlen
      simp at hlen
    · intro _
      rfl
    · intro _
      rfl
    · intro hle
      rw [show occsOf name [] = [] from rfl]
      simp only [List.count_nil, List.length_nil]
      omega
    · intro _
      rw [show occsOf name [] = [] from rfl]
      simp only [List.count_nil, List.length_nil]
  | cons line rest ih =>
    intro processed name hist hwf hlook
    obtain ⟨⟨n, ip⟩, hparse⟩ : ∃ p, parseNameIp line = some p :=
      Option.isSome_iff_exists.mp (hwf line (List.mem_cons_self _ _))
    have hwfr : ∀ l ∈ rest, (parseNameIp l).isSome :=
      fun l hl => hwf l (List.mem_cons_of_mem _ hl)
    by_cases hn : n = name
    · subst hn
      have hocc : occsOf n (line :: rest) = ip :: occsOf n rest := by
        simp [occsOf, List.filterMap_cons, hparse]
      rcases hh : hist with _ | ⟨h0, htl⟩
      · subst hh
        have hlooknone : lookupA processed n = none := by simpa using hlook
        have hlook2 : lookupA (processed ++ [(n, [ip])]) n =
            (if ([ip] : List String) = [] then none else some [ip]) := by
          rw [if_neg (by simp)]
          exact lookupA_append_self processed n [ip] hlooknone
        obtain ⟨ts, ws, hd, hB, hC, hD, hE1, hE2⟩ :=
          ih (processed ++ [(n, [ip])]) n [ip] hwfr hlook2
        refine ⟨ts, ws, ?_, ?_, ?_, ?_, ?_, ?_⟩
        · simp only [digAux, hparse, hlooknone]
          exact hd
        · intro a b r _ happ
          rw [hocc] at happ
          simp only [List.nil_append] at happ
          exact hB a b r (by simp) (by simpa using happ)
        · intro hle
          rw [hocc] at hle
          simp only [List.length_nil, List.length_cons] at hle
          exact hC (by simp only [List.length_singleton]; omega)
        · intro h2
          simp at h2
        · intro _
          rw [hocc]
          have h1 := hE1 (by simp)
          simp only [List.length_nil, List.length_cons, List.length_singleton] at h1 ⊢
          omega
        · intro h2
          simp at h2
      · subst hh
        have hlooksome : lookupA processed n = some (h0 :: htl) := by simpa using hlook
        have hlook2 : lookupA (updateA processed n ((h0 :: htl) ++ [ip])) n =
            (if (h0 :: htl) ++ [ip] = [] then none else some ((h0 :: htl) ++ [ip])) := by
          rw [if_neg (by simp)]
          exact lookupA_updateA_self processed n _ _ hlooksome
        obtain ⟨ts, ws, hd, hB, hC, hD, hE1, hE2⟩ :=
          ih (updateA processed n ((h0 :: htl) ++ [ip])) n ((h0 :: htl) ++ [ip]) hwfr hlook2
        rcases htl with _ | ⟨h1, htl2⟩
        · refine ⟨(n, h0, ip) :: ts, ws, ?_, ?_, ?_, ?_, ?_, ?_⟩
          · simp only [digAux, hparse, hlooksome]
            rw [hd]
            rfl
          · intro a b r _ happ
            rw [hocc] at happ
            simp only [List.cons_append, List.nil_append] at happ
            injection happ with ha happ2
            injection happ2 with hb happ3
            subst ha
            subst hb
            have hfil : ts.filter (fun t => t.1 == n) = [] := hD (by simp)
            simp [List.filter_cons, hfil]
          · intro hle
            rw [hocc] at hle
            simp at hle
          · intro h2
            simp at h2
          · intro _
            rw [hocc]
            have hcw := hE1 (by simp)
            simp only [List.length_cons, List.length_nil, List.length_append,
              List.length_singleton] at hcw ⊢
            omega
          · intro h2
            simp at h2
        · refine ⟨ts, n :: ws, ?_, ?_, ?_, ?_, ?_, ?_⟩
          · simp only [digAux, hparse, hlooksome]
            rw [hd]
            rcases hq : htl2 ++ [ip] with _ | ⟨w, wtl⟩
            · exact absurd hq (by simp)
            · simp only [List.cons_append, hq]
              rw [if_pos (by simp only [List.length_cons]; omega)]
          · intro a b r hlen happ
            simp at hlen
          · intro hle
            rw [hocc] at hle
            exact hD (by simp only [List.length_append, List.length_cons]; omega)
          · intro _
            exact hD (by simp only [List.length_append, List.length_cons]; omega)
          · intro hle
            rw [hocc]
            have hcw := hE2 (by simp only [List.length_append, List.length_cons]; omega)
            have hcount : (n :: ws).count n = ws.count n + 1 := by
              simp [List.count_cons]
            rw [hcount, hcw]
            simp only [List.length_cons, List.length_append, List.length_singleton] at hle ⊢
            omega
          · intro _
            rw [hocc]
            have hcw := hE2 (by simp only [List.length_append, List.length_cons]; omega)
            have hcount : (n :: ws).count n = ws.count n + 1 := by
              simp [List.count_cons]
            rw [hcount, hcw]
            simp only [List.length_cons, List.length_append, List.length_singleton]
    · have hocc : occsOf name (line :: rest) = occsOf name rest := by
        simp [occsOf, List.filterMap_cons, hparse, hn]
      have hbeq : (n == name) = false := by
        simpa using hn
      rcases hlk : lookupA processed n with _ | ips
      · have hlook2 : lookupA (processed ++ [(n, [ip])]) name =
            (if hist = [] then none else some hist) := by
          rw [lookupA_append_other processed n name [ip] hn]
          exact hlook
        obtain ⟨ts, ws, hd, hB, hC, hD, hE1, hE2⟩ :=
          ih (processed ++ [(n, [ip])]) name hist hwfr hlook2
        refine ⟨ts, ws, ?_, ?_, ?_, ?_, ?_, ?_⟩
        · simp only [digAux, hparse, hlk]
          exact hd
        · intro a b r hlen happ
          rw [hocc] at happ
          exact hB a b r hlen happ
        · intro hle
          rw [hocc] at hle
          exact hC hle
        · exact hD
        · intro hle
          rw [hocc]
          exact hE1 hle
        · intro h2
          rw [hocc]
          exact hE2 h2
      · have hlook2 : lookupA (updateA processed n (ips ++ [ip])) name =
            (if hist = [] then none else some hist) := by
          rw [lookupA_updateA_other processed n name (ips ++ [ip]) hn]
          exact hlook
        obtain ⟨ts, ws, hd, hB, hC, hD, hE1, hE2⟩ :=
          ih (updateA processed n (ips ++ [ip])) name hist hwfr hlook2
        rcases hsh : ips ++ [ip] with _ | ⟨a2, tl⟩
        · exact absurd hsh (by simp)
        rcases tl with _ | ⟨b2, tl2⟩
        · refine ⟨ts, ws, ?_, ?_, ?_, ?_, ?_, ?_⟩
          · simp only [digAux, hparse, hlk]
            rw [hd, hsh]
            show (if 2 < ([a2] : List String).length then Except.ok (ts, n :: ws)
              else Except.ok (ts, ws)) = Except.ok (ts, ws)
            rw [if_neg (by simp only [List.length_cons, List.length_nil]; omega)]
          · intro a b r hlen happ
            rw [hocc] at happ
            exact hB a b r hlen happ
          · intro hle
            rw [hocc] at hle
            exact hC hle
          · exact hD
          · intro hle
            rw [hocc]
            exact hE1 hle
          · intro h2
            rw [hocc]
            exact hE2 h2
        rcases tl2 with _ | ⟨c2, tl3⟩
        · refine ⟨(n, a2, b2) :: ts, ws, ?_, ?_, ?_, ?_, ?_, ?_⟩
          · simp only [digAux, hparse, hlk]
            rw [hd, hsh]
          · intro a b r hlen happ
            rw [hocc] at happ
            simp only [List.filter_cons, hbeq, Bool.false_eq_true, if_false]
            exact hB a b r hlen happ
          · intro hle
            rw [hocc] at hle
            simp only [List.filter_cons, hbeq, Bool.false_eq_true, if_false]
            exact hC hle
          · intro h2
            simp only [List.filter_cons, hbeq, Bool.false_eq_true, if_false]
            exact hD h2
          · intro hle
            rw [hocc]
            exact hE1 hle
          · intro h2
            rw [hocc]
            exact hE2 h2
        · refine ⟨ts, n :: ws, ?_, ?_, ?_, ?_, ?_, ?_⟩
          · simp only [digAux, hparse, hlk]
            rw [hd, hsh]
            show (if 2 < (a2 :: b2 :: c2 :: tl3).length then Except.ok (ts, n :: ws)
              else Except.ok (ts, ws)) = Except.ok (ts, n :: ws)
            rw [if_pos (by simp only [List.length_cons]; omega)]
          · intro a b r hlen happ
            rw [hocc] at happ
            exact hB a b r hlen happ
          · intro hle
            rw [hocc] at hle
            exact hC hle
          · exact hD
          · intro hle
            rw [hocc]
            have hcount : (n :: ws).count name = ws.count name := by
              simp [List.count_cons, hbeq]
            rw [hcount]
            exact hE1 hle
          · intro h2
            rw [hocc]
            have hcount : (n :: ws).count name = ws.count name := by
              simp [List.count_cons, hbeq]
            rw [hcount]
            exact hE2 h2

/-- C2: for every listing all of whose lines have at least 4
whitespace-delimited tokens, an interface `name` whose address
occurrences in listing order are `a :: b :: r` (that is, `name`
appears on at least two lines) gets exactly one task, built from the
first two occurrences in order, and one warning per occurrence beyond
the second. -/
theorem spec_C2 (interfaces : String) (name a b : String) (r : List String)
    (h4 : ∀ l ∈ splitlines interfaces, 4 ≤ (pySplitWs l).length)
    (hocc : occsOf name (splitlines interfaces) = a :: b :: r) :
    ∃ ts ws, double_interface_generator interfaces = Except.ok (ts, ws) ∧
      ts.filter (fun t => t.1 == name) = [(name, a, b)] ∧
      ws.count name = r.length := by
  have hwf : ∀ l ∈ splitlines interfaces, (parseNameIp l).isSome := by
    intro l hl
    have h := h4 l hl
    unfold parseNameIp
    rw [List.get?_eq_get (by omega : 1 < (pySplitWs l).length),
      List.get?_eq_get (by omega : 3 < (pySplitWs l).length)]
    rfl
  obtain ⟨ts, ws, hd, hB, _, _, hE1, _⟩ :=
    digAux_spec (splitlines interfaces) [] name [] hwf (by simp [lookupA])
  refine ⟨ts, ws, hd, ?_, ?_⟩
  · exact hB a b r (by simp) (by simpa using hocc)
  · have hcw := hE1 (by simp)
    rw [hcw, hocc]
    simp only [List.length_nil, List.length_cons]
    omega

theorem spec_C2_witness :
    ∃ ts ws,
      double_interface_generator
          "1: lo inet 127.0.0.1/8 x\n2: eth0 inet 10.0.0.1/24 x\n3: eth0 inet 10.0.0.2/24 x\n4: eth0 inet 10.0.0.3/24 x" =
        Except.ok (ts, ws) ∧
      ts.filter (fun t => t.1 == "eth0") = [("eth0", "10.0.0.1/24", "10.0.0.2/24")] ∧
      ws.count "eth0" = (["10.0.0.3/24"] : List String).length :=
  spec_C2
    "1: lo inet 127.0.0.1/8 x\n2: eth0 inet 10.0.0.1/24 x\n3: eth0 inet 10.0.0.2/24 x\n4: eth0 inet 10.0.0.3/24 x"
    "eth0" "10.0.0.1/24" "10.0.0.2/24" ["10.0.0.3/24"] (by decide) (by decide)

/-!  ## C4: end-to-end scenario  -/

/-- C4: on a listing with exactly the two `eth1` lines of the spec's
scenario and a stored config whose address is `192.168.12.100/24`, the
generator emits the single task `(eth1, 192.168.11.100/24,
192.168.12.100/24)` with no warnings; extraction, selection, gateway and
table derivation produce `192.168.11.100/24`, `192.168.11.1` and `111`;
and the pure pipeline rewrites the config to the expected document with
all other lines unchanged. -/
theorem spec_C4 :
    double_interface_generator
        "186: eth1 inet 192.168.11.100/24 brd 192.168.11.255 scope global eth1\n187: eth1 inet 192.168.12.100/24 brd 192.168.12.255 scope global secondary eth1" =
      Except.ok ([("eth1", "192.168.11.100/24", "192.168.12.100/24")], []) ∧
    get_current_ip
        "[Match]\nName=eth1\n\n[Network]\nAddress=192.168.12.100/24\nGateway=192.168.12.1\n\n[RoutingPolicyRule]\nFrom=192.168.12.100/24\nTable=112\n" =
      some "192.168.12.100/24" ∧
    get_new_ip (some "192.168.12.100/24") "192.168.11.100/24" "192.168.12.100/24" =
      "192.168.11.100/24" ∧
    get_new_gateway "192.168.11.100/24" = "192.168.11.1" ∧
    get_new_table "192.168.11.100/24" = some 111 ∧
    change_config
        "[Match]\nName=eth1\n\n[Network]\nAddress=192.168.12.100/24\nGateway=192.168.12.1\n\n[RoutingPolicyRule]\nFrom=192.168.12.100/24\nTable=112\n"
        "192.168.11.100/24" "192.168.12.100/24" =
      some
        "[Match]\nName=eth1\n\n[Network]\nAddress=192.168.11.100/24\nGateway=192.168.11.1\n\n[RoutingPolicyRule]\nFrom=192.168.11.100/24\nTable=111" := by
  refine ⟨by rfl, by rfl, by rfl, by rfl, by rfl, by rfl⟩
